import Mathlib

/-!
Shallow embedding of the cryptocurrency ETL pipeline in `code_2.py`
(classes `CryptoAPIHandler` and `DataTransformer`).

Modelling conventions:
* A CSV file on disk is `Option (CsvFile α)`: `none` means the file does not
  exist (`os.path.isfile` is false), `some lines` is the file's line sequence,
  each line being either the header line or a data row.
* A data row is a payload record (abstract type `α`) together with the
  `timestamp` column that `save_data` adds (`pd.to_datetime('now')` is modelled
  by an explicit wall-clock argument `now : Nat` passed at store time).
* The network is an oracle `NetResult α` describing what one
  `session.get` + `json.loads` + `['data']` interaction would yield:
  the three transport exceptions caught by `fetch_data`'s `except` clause,
  a body that is not valid JSON (`json.loads` raises, uncaught),
  a JSON body without a top-level `data` key (`data['data']` raises, uncaught),
  or a well-formed body carrying a list of records.
* Uncaught Python exceptions are modelled with `Except PyExn`.
* Percent-change values are rationals (`ℚ`); the six pandas columns
  `quote.USD.percent_change_{1h,24h,7d,30d,60d,90d}` are the fields of
  `QuoteRow`, and `transform_data` follows
  `groupby('name', sort=False).mean().stack()` plus the label `replace`.
-/

namespace CryptoETL

/-- The six percent-change horizons used by `transform_data`. -/
inductive Horizon : Type
  | h1h
  | h24h
  | d7
  | d30
  | d60
  | d90
deriving DecidableEq, Repr

/-- Column order of the six percent-change columns in `transform_data`'s
column list (the order `stack` emits them in). -/
def horizons : List Horizon := [.h1h, .h24h, .d7, .d30, .d60, .d90]

/-- The replacement labels installed into the `Percent_Change` column by
`transform_data`'s `replace` call. -/
def horizonLabel : Horizon → String
  | .h1h => "1h"
  | .h24h => "24h"
  | .d7 => "7d"
  | .d30 => "30d"
  | .d60 => "60d"
  | .d90 => "90d"

/-- One row of the loaded table as `transform_data` and `filter_coin_data`
see it: the `name` column plus the six `quote.USD.percent_change_*` columns. -/
structure QuoteRow where
  name : String
  pc1h : ℚ
  pc24h : ℚ
  pc7d : ℚ
  pc30d : ℚ
  pc60d : ℚ
  pc90d : ℚ
deriving DecidableEq, Repr

/-- Projection of the percent-change column for a given horizon. -/
def pcCol (r : QuoteRow) : Horizon → ℚ
  | .h1h => r.pc1h
  | .h24h => r.pc24h
  | .d7 => r.pc7d
  | .d30 => r.pc30d
  | .d60 => r.pc60d
  | .d90 => r.pc90d

/-- One row of `transform_data`'s output: `name`, the `Percent_Change`
label column, and the `values` column. -/
structure TidyRow where
  name : String
  pcLabel : String
  value : ℚ
deriving DecidableEq, Repr

/-- A record stamped with the `timestamp` column that `save_data` adds. -/
structure Stamped (α : Type) where
  payload : α
  timestamp : Nat
deriving DecidableEq, Repr

/-- One line of the persisted CSV file: the header line or a data row. -/
inductive Line (α : Type) : Type
  | header
  | row (r : Stamped α)
deriving DecidableEq, Repr

/-- The persisted CSV file's contents as a line sequence. -/
abbrev CsvFile (α : Type) := List (Line α)

/-- Number of header lines in a file. -/
def countHeaders (f : CsvFile α) : Nat :=
  f.countP fun l => match l with | .header => true | .row _ => false

/-- The data rows of a file, in order (what `pd.read_csv` yields back). -/
def dataRows (f : CsvFile α) : List (Stamped α) :=
  f.filterMap fun l => match l with | .header => none | .row r => some r

/-- The batch dataframe after `save_data`'s two first statements:
`pd.json_normalize(data)` followed by assigning the scalar
`pd.to_datetime('now')` to the `timestamp` column, which stamps every
row of the batch with the same value `now`. -/
def stampBatch (data : List α) (now : Nat) : List (Stamped α) :=
  data.map fun a => ⟨a, now⟩

/-- Embedding of `CryptoAPIHandler.save_data`.  Returns the file contents
after the call together with the `self.dataframe` field after the call.
`if not os.path.isfile(...)` is the `none` branch: the file is created with
`header=True`; otherwise rows are appended with `mode='a', header=False`. -/
def save_data (file : Option (CsvFile α)) (data : List α) (now : Nat)
    (save_csv : Bool) : Option (CsvFile α) × List (Stamped α) :=
  let df := stampBatch data now
  if save_csv then
    match file with
    | none => (some (Line.header :: df.map Line.row), df)
    | some f => (some (f ++ df.map Line.row), df)
  else (file, df)

/-- Embedding of `CryptoAPIHandler.load_data`.  Returns the loaded table
(`none` when the file is absent) together with the list of printed messages. -/
def load_data (file : Option (CsvFile α)) :
    Option (List (Stamped α)) × List String :=
  match file with
  | some f => (some (dataRows f), [])
  | none => (none, ["No data file found."])

/-- Outcome of one HTTP exchange as `fetch_data` experiences it. -/
inductive NetResult (α : Type) : Type
  | connectionError
  | timeoutErr
  | tooManyRedirects
  | respNotJson
  | respJsonNoData
  | respData (records : List α)
deriving DecidableEq, Repr

/-- Kinds of Python exceptions that escape `fetch_data` uncaught. -/
inductive PyExn : Type
  | jsonDecodeError
  | keyError
deriving DecidableEq, Repr

/-- Embedding of `CryptoAPIHandler.fetch_data`.  The `except` clause catches
exactly `ConnectionError`, `Timeout` and `TooManyRedirects`, prints a message
and returns `None`; a non-JSON body makes `json.loads` raise and a JSON body
without a `data` key makes `data['data']` raise, both uncaught. -/
def fetch_data (net : NetResult α) : Except PyExn (Option (List α) × List String) :=
  match net with
  | .connectionError => Except.ok (none, ["Error fetching data: ConnectionError"])
  | .timeoutErr => Except.ok (none, ["Error fetching data: Timeout"])
  | .tooManyRedirects => Except.ok (none, ["Error fetching data: TooManyRedirects"])
  | .respNotJson => Except.error PyExn.jsonDecodeError
  | .respJsonNoData => Except.error PyExn.keyError
  | .respData rs => Except.ok (some rs, [])

/-- Observable state threaded through `automate_data_pull`: the file contents,
the number of `fetch_data` calls made, and the durations of the `sleep`
calls made, in order. -/
structure PullState (α : Type) where
  file : Option (CsvFile α)
  fetches : Nat
  sleeps : List Nat

/-- One iteration of the `automate_data_pull` loop body: fetch, and `if data:`
(Python truthiness: both `None` and an empty list skip the store), then
`sleep(interval)`.  An exception escaping `fetch_data` aborts the iteration. -/
def step (interval : Nat) (net : NetResult α) (now : Nat) (s : PullState α) :
    Except PyExn (PullState α) :=
  match fetch_data net with
  | .error e => Except.error e
  | .ok (dataOpt, _log) =>
    let file :=
      match dataOpt with
      | some data => if data.isEmpty then s.file else (save_data s.file data now true).1
      | none => s.file
    Except.ok ⟨file, s.fetches + 1, s.sleeps ++ [interval]⟩

/-- The `for i in range(runs)` loop of `automate_data_pull`, with `i` the
current iteration index and the second argument the iterations remaining;
`nets i` and `clock i` are the network outcome and wall-clock reading of
iteration `i`. -/
def pullFrom (interval : Nat) (nets : Nat → NetResult α) (clock : Nat → Nat) :
    Nat → Nat → PullState α → Except PyExn (PullState α)
  | _, 0, s => Except.ok s
  | i, r + 1, s =>
    match step interval (nets i) (clock i) s with
    | .error e => Except.error e
    | .ok s' => pullFrom interval nets clock (i + 1) r s'

/-- Embedding of `CryptoAPIHandler.automate_data_pull`. -/
def automate_data_pull (interval runs : Nat) (nets : Nat → NetResult α)
    (clock : Nat → Nat) (file : Option (CsvFile α)) :
    Except PyExn (PullState α) :=
  pullFrom interval nets clock 0 runs ⟨file, 0, []⟩

/-- Distinct elements of a list in first-seen order, with an accumulator of
elements already seen — the group-key order produced by
`groupby('name', sort=False)`. -/
def firstSeenAux (seen : List String) : List String → List String
  | [] => []
  | a :: l => if a ∈ seen then firstSeenAux seen l else a :: firstSeenAux (a :: seen) l

/-- Distinct elements of a list in first-seen order. -/
def firstSeen (l : List String) : List String := firstSeenAux [] l

/-- The rows of a group: `dataframe.groupby('name', ...)` collects, for a
group key `n`, exactly the rows whose `name` equals `n`. -/
def groupRows (df : List QuoteRow) (n : String) : List QuoteRow :=
  df.filter fun r => r.name = n

/-- The `.mean()` of one percent-change column over one group. -/
def groupMean (df : List QuoteRow) (n : String) (h : Horizon) : ℚ :=
  ((groupRows df n).map fun r => pcCol r h).sum / ((groupRows df n).length : ℚ)

/-- The six tidy rows that `stack()` emits for one group row: one per
percent-change column, in column order, labelled by the `replace`d label. -/
def tidyRowsFor (df : List QuoteRow) (n : String) : List TidyRow :=
  horizons.map fun h => ⟨n, horizonLabel h, groupMean df n h⟩

/-- Embedding of `DataTransformer.transform_data`:
`groupby('name', sort=False)` over the six percent-change columns, `.mean()`,
`.stack()`, rename to `Percent_Change`/`values`, and label `replace`. -/
def transform_data (df : List QuoteRow) : List TidyRow :=
  (firstSeen (df.map fun r => r.name)).flatMap (tidyRowsFor df)

/-- The double-quote character `"` (used by the query string template). -/
def quoteChar : Char := Char.ofNat 34

/-- The backslash character `\`. -/
def backslashChar : Char := Char.ofNat 92

/-- The line-feed character. -/
def lineFeedChar : Char := Char.ofNat 10

/-- The carriage-return character. -/
def carriageReturnChar : Char := Char.ofNat 13

/-- The NUL character. -/
def nulChar : Char := Char.ofNat 0

/-- Split a character list at every double quote (segments between quotes). -/
def splitOnQuote : List Char → List (List Char)
  | [] => [[]]
  | c :: rest =>
    match splitOnQuote rest with
    | [] => [[]]
    | s :: ss => if c = quoteChar then [] :: s :: ss else (c :: s) :: ss

/-- The code fragment that separates two string literals in a query of the
form `name == "A" or name == "B"`. -/
def orSep : List Char := " or name == ".toList

/-- Interpret the quote-split segments of the interpolated `coin_name` as the
string literals of a query `name == "A" or name == "B" or ...`: segments must
alternate literal, separator `" or name == "`, literal, …, ending in a
literal (the template's closing quote closes the last one).  Any other shape
is a query the modelled fragment rejects (a query-syntax failure). -/
def segsToLits : List (List Char) → Option (List String)
  | [lit] => some [String.mk lit]
  | lit :: sep :: rest =>
    if sep = orSep then (segsToLits rest).map fun ls => String.mk lit :: ls
    else none
  | [] => none

/-- The set of name literals that the query
`f'name == "{coin_name}"'` compares against, per `DataFrame.query`'s
syntax on the modelled fragment.  A `coin_name` free of the special
characters below yields exactly `[coin_name]`; an embedded quote splices
extra disjuncts into the query.  Query failures: a line feed or carriage
return inside a double-quoted Python string literal leaves it unterminated
(the query text raises a SyntaxError), a NUL byte anywhere in the query text
makes the compiler raise a ValueError, and names containing a backslash are
conservatively treated as failures too (backslash escape rules are not
modelled). -/
def queryNameLits (coin_name : String) : Option (List String) :=
  if backslashChar ∈ coin_name.toList ∨ lineFeedChar ∈ coin_name.toList ∨
      carriageReturnChar ∈ coin_name.toList ∨ nulChar ∈ coin_name.toList then none
  else segsToLits (splitOnQuote coin_name.toList)

/-- Embedding of `DataTransformer.filter_coin_data`, i.e.
`dataframe.query(f'name == "{coin_name}"')`: the `coin_name` string is
interpolated into the query text, so the rows kept are those whose `name`
is among the query's parsed name literals; a malformed query raises. -/
def filter_coin_data (df : List QuoteRow) (coin_name : String) :
    Except String (List QuoteRow) :=
  match queryNameLits coin_name with
  | some lits => Except.ok (df.filter fun r => lits.contains r.name)
  | none => Except.error "query error"

/-- The file contents after one loop body, given the data (or absence of
data) the fetch produced: `if data:` skips the store on `None` and on an
empty list, and otherwise stores the batch. -/
def stepFile {α : Type} (file0 : Option (CsvFile α)) (now : Nat) :
    Option (List α) → Option (CsvFile α)
  | some data => if data.isEmpty then file0 else (save_data file0 data now true).1
  | none => file0

/-! Theorems. -/

/-- A leading header line contributes no data rows. -/
theorem dataRows_header_cons {α : Type} (l : CsvFile α) :
    dataRows (Line.header :: l) = dataRows l := rfl

/-- Reading back rows written with `Line.row` recovers them. -/
theorem dataRows_map_row {α : Type} (l : List (Stamped α)) :
    dataRows (l.map Line.row) = l := by
  induction l with
  | nil => rfl
  | cons r t ih =>
    simp only [List.map_cons, dataRows, List.filterMap_cons] at ih ⊢
    simpa using ih

/-- Data rows distribute over file concatenation. -/
theorem dataRows_append {α : Type} (l1 l2 : CsvFile α) :
    dataRows (l1 ++ l2) = dataRows l1 ++ dataRows l2 := by
  simp [dataRows, List.filterMap_append]

/-- Stamping a batch preserves its length. -/
theorem length_stampBatch {α : Type} (data : List α) (now : Nat) :
    (stampBatch data now).length = data.length := by
  simp [stampBatch]

/-- C3: if the target file does not exist at write time, `save_data` creates
it with a header line followed by the batch's rows; if it exists, the batch's
rows are appended without a header; and storing two batches of `K` and `M`
records starting from an absent file yields exactly one header line and
`K + M` data rows. -/
theorem save_data_append_once_header {α : Type} (b1 b2 : List α) (t1 t2 : Nat)
    (f : CsvFile α) :
    (save_data (none : Option (CsvFile α)) b1 t1 true).1 =
      some (Line.header :: (stampBatch b1 t1).map Line.row) ∧
    (save_data (some f) b1 t1 true).1 =
      some (f ++ (stampBatch b1 t1).map Line.row) ∧
    ∃ lines : CsvFile α,
      (save_data (save_data (none : Option (CsvFile α)) b1 t1 true).1 b2 t2 true).1 =
        some lines ∧
      countHeaders lines = 1 ∧
      (dataRows lines).length = b1.length + b2.length := by
  refine ⟨rfl, rfl, Line.header :: (stampBatch b1 t1).map Line.row ++
    (stampBatch b2 t2).map Line.row, rfl, ?_, ?_⟩
  · simp [countHeaders, List.countP_cons, List.countP_append, List.countP_map,
      Function.comp_def, List.countP_eq_zero]
  · rw [dataRows_append, dataRows_header_cons, dataRows_map_row, dataRows_map_row,
      List.length_append, length_stampBatch, length_stampBatch]

/-- C4: every record written by one `save_data` call carries the same
timestamp, namely the wall-clock value `now` read at store time (the payloads
themselves contribute no timestamp), and when the batch is persisted the
lines appended to the file are exactly that batch's stamped rows. -/
theorem save_data_single_timestamp {α : Type} (file : Option (CsvFile α))
    (data : List α) (now : Nat) (sc : Bool) :
    (∀ r ∈ (save_data file data now sc).2, r.timestamp = now) ∧
    (sc = true → ∃ pre : CsvFile α,
      (save_data file data now sc).1 =
        some (pre ++ ((save_data file data now sc).2).map Line.row)) := by
  constructor
  · intro r hr
    cases sc <;> cases file <;>
      simp only [save_data, stampBatch, if_true, if_false, Bool.false_eq_true,
        ite_false, ite_true] at hr <;>
      · obtain ⟨a, _, rfl⟩ := List.mem_map.1 hr
        rfl
  · intro hsc
    subst hsc
    cases file with
    | none => exact ⟨[Line.header], rfl⟩
    | some f => exact ⟨f, rfl⟩

/-- Witness for C4 at a concrete batch. -/
theorem save_data_single_timestamp_witness :
    (⟨7, 5⟩ : Stamped Nat).timestamp = 5 :=
  (save_data_single_timestamp (none : Option (CsvFile Nat)) [7] 5 true).1
    ⟨7, 5⟩ (by simp [save_data, stampBatch])

/-- C9: `load_data` returns the full persisted table when the file exists,
and when the file is absent it prints a message and returns `None` instead of
raising — a normal empty-state outcome. -/
theorem load_data_empty_state {α : Type} (file : Option (CsvFile α)) :
    (∀ f, file = some f → load_data file = (some (dataRows f), [])) ∧
    (file = none → load_data file = (none, ["No data file found."])) := by
  constructor
  · rintro f rfl; rfl
  · rintro rfl; rfl

/-- Witness for C9 at a concrete file state. -/
theorem load_data_empty_state_witness :
    load_data (none : Option (CsvFile Nat)) = (none, ["No data file found."]) :=
  (load_data_empty_state (none : Option (CsvFile Nat))).2 rfl

/-- C5: each of the three transport-level failures is caught by `fetch_data`,
which logs a message and returns `None` rather than raising; the poll-loop
body treats that result by skipping the store for the cycle and carrying on
(file unchanged, iteration completed normally). -/
theorem fetch_transport_failure_nonfatal {α : Type} (net : NetResult α)
    (h : net = NetResult.connectionError ∨ net = NetResult.timeoutErr ∨
      net = NetResult.tooManyRedirects) :
    (∃ msg, fetch_data net = Except.ok (none, [msg])) ∧
    (∀ interval now s, step interval net now s =
      Except.ok ⟨s.file, s.fetches + 1, s.sleeps ++ [interval]⟩) := by
  rcases h with rfl | rfl | rfl <;>
    exact ⟨⟨_, rfl⟩, fun _ _ _ => rfl⟩

/-- Witness for C5 at the timeout failure. -/
theorem fetch_transport_failure_nonfatal_witness :
    ∃ msg, fetch_data (NetResult.timeoutErr : NetResult Nat) =
      Except.ok (none, [msg]) :=
  (fetch_transport_failure_nonfatal (NetResult.timeoutErr : NetResult Nat)
    (Or.inr (Or.inl rfl))).1

/-- C7: a completed HTTP exchange whose payload is malformed (body not valid
JSON, or JSON without the expected top-level `data` collection) raises past
`fetch_data`'s `except` clause, and the uncaught exception terminates the
automated run. -/
theorem fetch_malformed_uncaught {α : Type} (net : NetResult α)
    (h : net = NetResult.respNotJson ∨ net = NetResult.respJsonNoData) :
    (∃ e, fetch_data net = Except.error e) ∧
    (∀ interval runs (nets : Nat → NetResult α) clock file,
      0 < runs → nets 0 = net →
      ∃ e, automate_data_pull interval runs nets clock file = Except.error e) := by
  have hfe : ∃ e, fetch_data net = Except.error e := by
    rcases h with rfl | rfl
    · exact ⟨PyExn.jsonDecodeError, rfl⟩
    · exact ⟨PyExn.keyError, rfl⟩
  refine ⟨hfe, ?_⟩
  intro interval runs nets clock file hruns h0
  obtain ⟨e, he⟩ := hfe
  obtain ⟨r, rfl⟩ := Nat.exists_eq_add_of_lt hruns
  refine ⟨e, ?_⟩
  simp only [automate_data_pull, Nat.zero_add, pullFrom, step, h0, he]

/-- Witness for C7: a non-JSON body on the first iteration aborts the run. -/
theorem fetch_malformed_uncaught_witness :
    ∃ e, automate_data_pull 60 1 (fun _ => (NetResult.respNotJson : NetResult Nat))
      (fun _ => 0) none = Except.error e :=
  (fetch_malformed_uncaught (NetResult.respNotJson : NetResult Nat)
    (Or.inl rfl)).2 60 1 _ _ none (by decide) rfl

/-- C10: an iteration whose fetch succeeds but returns an empty record list
skips the store step (Python's `if data:` treats an empty list like a failed
fetch), leaving the file — including a still-absent file — untouched, while
the iteration otherwise completes normally. -/
theorem pull_skips_empty_batch {α : Type} (interval now : Nat) (s : PullState α) :
    step interval (NetResult.respData ([] : List α)) now s =
      Except.ok ⟨s.file, s.fetches + 1, s.sleeps ++ [interval]⟩ ∧
    step interval (NetResult.respData ([] : List α)) now s =
      step interval NetResult.connectionError now s := by
  exact ⟨rfl, rfl⟩

/-- A loop body whose fetch completes without an uncaught exception counts
one fetch, one sleep, and updates the file per `stepFile`. -/
theorem step_ok {α : Type} (interval now : Nat) (net : NetResult α)
    (s : PullState α) (d : Option (List α)) (lg : List String)
    (h : fetch_data net = Except.ok (d, lg)) :
    step interval net now s =
      Except.ok ⟨stepFile s.file now d, s.fetches + 1, s.sleeps ++ [interval]⟩ := by
  cases d <;> simp [step, stepFile, h]

/-- Loop invariant for `pullFrom`: as long as no scheduled fetch raises an
uncaught exception, running `r` iterations from index `i` adds exactly `r`
fetch attempts and `r` sleeps of `interval` to the state. -/
theorem pullFrom_ok {α : Type} (interval : Nat) (nets : Nat → NetResult α)
    (clock : Nat → Nat) :
    ∀ (r i : Nat) (s : PullState α),
      (∀ j, j < r → ∀ e, fetch_data (nets (i + j)) ≠ Except.error e) →
      ∃ s' : PullState α, pullFrom interval nets clock i r s = Except.ok s' ∧
        s'.fetches = s.fetches + r ∧
        s'.sleeps = s.sleeps ++ List.replicate r interval := by
  intro r
  induction r with
  | zero => intro i s _; exact ⟨s, rfl, rfl, by simp⟩
  | succ n ih =>
    intro i s hok
    have hi : ∀ e, fetch_data (nets i) ≠ Except.error e := by
      have := hok 0 (Nat.succ_pos n)
      simpa using this
    obtain ⟨v, hv⟩ : ∃ v, fetch_data (nets i) = Except.ok v := by
      cases hfd : fetch_data (nets i) with
      | error e => exact absurd hfd (hi e)
      | ok v => exact ⟨v, rfl⟩
    obtain ⟨dataOpt, lg⟩ := v
    obtain ⟨s', hs', hf, hsl⟩ := ih (i + 1)
      ⟨stepFile s.file (clock i) dataOpt, s.fetches + 1, s.sleeps ++ [interval]⟩
      (by
        intro j hj e
        have := hok (j + 1) (by omega) e
        simpa [Nat.add_assoc, Nat.add_comm 1 j] using this)
    refine ⟨s', ?_, ?_, ?_⟩
    · simpa [pullFrom, step_ok interval (clock i) (nets i) s dataOpt lg hv] using hs'
    · rw [hf]
      simp only [PullState.mk.injEq]
      omega
    · rw [hsl]
      simp [List.replicate_succ, List.append_assoc]

/-- C2: `automate_data_pull` performs exactly `runs` fetch attempts and
exactly `runs` sleeps of `interval` seconds each (one after every iteration,
the final one included), for any mix of successful and failed fetches
(every scheduled exchange either yields data or is a caught transport
failure); a fetch that yields no data merely skips that cycle's store. -/
theorem automate_data_pull_counts {α : Type} (interval runs : Nat)
    (nets : Nat → NetResult α) (clock : Nat → Nat) (file : Option (CsvFile α))
    (hok : ∀ i, i < runs → ∀ e, fetch_data (nets i) ≠ Except.error e) :
    ∃ s : PullState α, automate_data_pull interval runs nets clock file = Except.ok s ∧
      s.fetches = runs ∧ s.sleeps = List.replicate runs interval := by
  obtain ⟨s, hs, hf, hsl⟩ := pullFrom_ok interval nets clock runs 0 ⟨file, 0, []⟩
    (by intro j hj e; simpa using hok j hj e)
  exact ⟨s, hs, by simpa using hf, by simpa using hsl⟩

/-- Witness for C2: three runs alternating a successful fetch, a transport
failure and an empty batch still count three fetches and three sleeps. -/
theorem automate_data_pull_counts_witness :
    ∃ s : PullState Nat,
      automate_data_pull 60 3
        (fun i => if i = 0 then NetResult.respData [7]
          else if i = 1 then NetResult.timeoutErr else NetResult.respData [])
        (fun i => i) none = Except.ok s ∧
      s.fetches = 3 ∧ s.sleeps = List.replicate 3 60 :=
  automate_data_pull_counts 60 3 _ _ none (by
    intro i hi e
    interval_cases i <;> simp [fetch_data])

/-- Membership in `firstSeenAux`: the elements kept are those of the input
not already seen. -/
theorem mem_firstSeenAux :
    ∀ (l seen : List String) (a : String),
      a ∈ firstSeenAux seen l ↔ a ∈ l ∧ a ∉ seen := by
  intro l
  induction l with
  | nil => intro seen a; simp [firstSeenAux]
  | cons b t ih =>
    intro seen a
    by_cases hb : b ∈ seen
    · simp only [firstSeenAux, if_pos hb, ih, List.mem_cons]
      constructor
      · rintro ⟨h1, h2⟩; exact ⟨Or.inr h1, h2⟩
      · rintro ⟨rfl | h1, h2⟩
        · exact absurd hb h2
        · exact ⟨h1, h2⟩
    · simp only [firstSeenAux, if_neg hb, List.mem_cons, ih]
      constructor
      · rintro (rfl | ⟨h1, h2⟩)
        · exact ⟨Or.inl rfl, hb⟩
        · exact ⟨Or.inr h1, fun hs => h2 (Or.inr hs)⟩
      · rintro ⟨rfl | h1, h2⟩
        · exact Or.inl rfl
        · by_cases hab : a = b
          · exact Or.inl hab
          · exact Or.inr ⟨h1, by simp [hab, h2]⟩

/-- The list produced by `firstSeenAux` has no duplicates. -/
theorem nodup_firstSeenAux :
    ∀ (l seen : List String), (firstSeenAux seen l).Nodup := by
  intro l
  induction l with
  | nil => intro seen; simp [firstSeenAux]
  | cons b t ih =>
    intro seen
    by_cases hb : b ∈ seen
    · simpa [firstSeenAux, hb] using ih seen
    · simp only [firstSeenAux, if_neg hb, List.nodup_cons]
      refine ⟨fun hmem => ?_, ih (b :: seen)⟩
      exact ((mem_firstSeenAux t (b :: seen) b).1 hmem).2 (List.mem_cons_self b seen)

/-- Membership in `firstSeen` agrees with membership in the input. -/
theorem mem_firstSeen (l : List String) (a : String) :
    a ∈ firstSeen l ↔ a ∈ l := by
  simp [firstSeen, mem_firstSeenAux]

/-- `firstSeen` has no duplicates. -/
theorem nodup_firstSeen (l : List String) : (firstSeen l).Nodup :=
  nodup_firstSeenAux l []

/-- The number of group keys equals the number of distinct input names. -/
theorem length_firstSeen (l : List String) :
    (firstSeen l).length = l.toFinset.card := by
  rw [List.card_toFinset]
  refine List.Perm.length_eq ?_
  refine (List.perm_ext_iff_of_nodup (nodup_firstSeen l) l.nodup_dedup).2 ?_
  intro a
  rw [mem_firstSeen, List.mem_dedup]

/-- `tidyRowsFor` always yields six rows. -/
theorem length_tidyRowsFor (df : List QuoteRow) (n : String) :
    (tidyRowsFor df n).length = 6 := by
  simp [tidyRowsFor, horizons]

/-- The tidy output of a group-key list has six rows per key. -/
theorem length_flatMap_tidyRowsFor (df : List QuoteRow) :
    ∀ l : List String, (l.flatMap (tidyRowsFor df)).length = 6 * l.length := by
  intro l
  induction l with
  | nil => simp
  | cons n t ih =>
    simp only [List.flatMap_cons, List.length_append, ih, length_tidyRowsFor,
      List.length_cons]
    ring

/-- The label map on the six horizons is injective. -/
theorem horizonLabel_inj (h1 h2 : Horizon) (h : horizonLabel h1 = horizonLabel h2) :
    h1 = h2 := by
  revert h
  cases h1 <;> cases h2 <;> decide

/-- Within one group's six tidy rows, each (name, label) pair matches exactly
once when the names agree and never when they differ. -/
theorem countP_tidyRowsFor (df : List QuoteRow) (n m : String) (h : Horizon) :
    ((tidyRowsFor df m).countP
        fun r => decide (r.name = n ∧ r.pcLabel = horizonLabel h)) =
      if m = n then 1 else 0 := by
  by_cases hmn : m = n
  · subst hmn
    cases h <;> simp [tidyRowsFor, horizons, horizonLabel, List.countP_cons]
  · simp [tidyRowsFor, horizons, List.countP_cons, hmn]

/-- Over a duplicate-free group-key list containing `n`, the pair
`(n, horizonLabel h)` appears exactly once in the tidy rows. -/
theorem countP_flatMap_tidyRowsFor (df : List QuoteRow) (n : String) (h : Horizon) :
    ∀ l : List String, l.Nodup → n ∈ l →
      ((l.flatMap (tidyRowsFor df)).countP
          fun r => decide (r.name = n ∧ r.pcLabel = horizonLabel h)) = 1 := by
  intro l
  induction l with
  | nil => intro _ hmem; cases hmem
  | cons m t ih =>
    intro hnd hmem
    rw [List.nodup_cons] at hnd
    rw [List.flatMap_cons, List.countP_append, countP_tidyRowsFor]
    rcases List.mem_cons.1 hmem with rfl | hmt
    · have hz : ((t.flatMap (tidyRowsFor df)).countP
          fun r => decide (r.name = n ∧ r.pcLabel = horizonLabel h)) = 0 := by
        rw [List.countP_eq_zero]
        intro r hr
        obtain ⟨m', hm', hrm'⟩ := List.mem_flatMap.1 hr
        obtain ⟨h', _, rfl⟩ := List.mem_map.1 hrm'
        simp only [decide_eq_true_eq, not_and]
        intro hname
        exact absurd (hname ▸ hm') hnd.1
      rw [hz, if_pos rfl]
    · have hmn : m ≠ n := fun hemn => hnd.1 (hemn ▸ hmt)
      rw [if_neg hmn, ih hnd.2 hmt]

/-- C1: for a loaded table with `N` distinct entity names, `transform_data`
produces exactly `6 × N` tidy rows, and each (entity, horizon) pair with the
entity present in the table and the horizon among the six appears in exactly
one row. -/
theorem transform_data_tidy_shape (df : List QuoteRow) :
    (transform_data df).length = 6 * ((df.map fun r => r.name).toFinset.card) ∧
    ∀ n ∈ df.map fun r => r.name, ∀ h : Horizon,
      ((transform_data df).countP
          fun r => decide (r.name = n ∧ r.pcLabel = horizonLabel h)) = 1 := by
  constructor
  · rw [transform_data, length_flatMap_tidyRowsFor, length_firstSeen]
  · intro n hn h
    exact countP_flatMap_tidyRowsFor df n h _ (nodup_firstSeen _)
      ((mem_firstSeen _ n).2 hn)

/-- Witness for C1 on a two-entity, three-row table. -/
theorem transform_data_tidy_shape_witness :
    ((transform_data
        [⟨"Bitcoin", 1, 2, 3, 4, 5, 6⟩, ⟨"Ethereum", 7, 8, 9, 10, 11, 12⟩,
          ⟨"Bitcoin", 3, 4, 5, 6, 7, 8⟩]).countP
        fun r => decide (r.name = "Bitcoin" ∧ r.pcLabel = horizonLabel Horizon.d7)) = 1 :=
  (transform_data_tidy_shape
      [⟨"Bitcoin", 1, 2, 3, 4, 5, 6⟩, ⟨"Ethereum", 7, 8, 9, 10, 11, 12⟩,
        ⟨"Bitcoin", 3, 4, 5, 6, 7, 8⟩]).2
    "Bitcoin" (by simp) Horizon.d7

/-- Collapsing a six-fold repeated head: only its first copy can survive. -/
theorem firstSeenAux_block (a : String) (seen t : List String) :
    firstSeenAux seen (a :: a :: a :: a :: a :: a :: t) =
      if a ∈ seen then firstSeenAux seen t else a :: firstSeenAux (a :: seen) t := by
  by_cases h : a ∈ seen <;> simp [firstSeenAux, h]

/-- The name column of the tidy rows of one group is six copies of its key. -/
theorem map_name_tidyRowsFor (df : List QuoteRow) (n : String) :
    (tidyRowsFor df n).map (fun r => r.name) = [n, n, n, n, n, n] := by
  simp [tidyRowsFor, horizons]

/-- Scanning blocks of six repeated fresh keys recovers the key list. -/
theorem firstSeenAux_blocks :
    ∀ (l seen : List String), l.Nodup → (∀ n ∈ l, n ∉ seen) →
      firstSeenAux seen (l.flatMap fun n => [n, n, n, n, n, n]) = l := by
  intro l
  induction l with
  | nil => intro seen _ _; rfl
  | cons a t ih =>
    intro seen hnd hfresh
    rw [List.nodup_cons] at hnd
    rw [List.flatMap_cons]
    show firstSeenAux seen (a :: a :: a :: a :: a :: a ::
      (t.flatMap fun n => [n, n, n, n, n, n])) = a :: t
    rw [firstSeenAux_block, if_neg (hfresh a (List.mem_cons_self a t))]
    congr 1
    refine ih (a :: seen) hnd.2 ?_
    intro n hn
    simp only [List.mem_cons, not_or]
    exact ⟨fun hna => hnd.1 (hna ▸ hn), hfresh n (List.mem_cons_of_mem a hn)⟩

/-- The name column of the tidy table is the group keys, six copies each. -/
theorem map_name_transform_data (df : List QuoteRow) :
    (transform_data df).map (fun r => r.name) =
      (firstSeen (df.map fun r => r.name)).flatMap fun n => [n, n, n, n, n, n] := by
  have hn : ∀ n, (tidyRowsFor df n).map (fun r => r.name) = [n, n, n, n, n, n] :=
    map_name_tidyRowsFor df
  simp [transform_data, List.map_flatMap, hn]

/-- C8: `transform_data` emits entity groups in first-seen order of the
loaded table (no sorting), and each emitted value is the arithmetic mean —
column sum divided by group size — of that entity's percent-change column
over all of that entity's rows in the loaded table. -/
theorem transform_data_order_and_mean (df : List QuoteRow) :
    firstSeen ((transform_data df).map fun r => r.name) =
      firstSeen (df.map fun r => r.name) ∧
    ∀ r ∈ transform_data df,
      (df.filter fun q => q.name = r.name) ≠ [] ∧
      ∀ h : Horizon, r.pcLabel = horizonLabel h →
        r.value = ((df.filter fun q => q.name = r.name).map fun q => pcCol q h).sum /
          (((df.filter fun q => q.name = r.name).length : ℚ)) := by
  constructor
  · rw [map_name_transform_data, firstSeen]
    rw [firstSeenAux_blocks _ [] (nodup_firstSeen _) (by simp)]
  · intro r hr
    obtain ⟨n, hn, hrn⟩ := List.mem_flatMap.1 hr
    obtain ⟨h', _, rfl⟩ := List.mem_map.1 hrn
    constructor
    · have hnl : n ∈ df.map fun r => r.name := (mem_firstSeen _ n).1 hn
      obtain ⟨q, hq, hqn⟩ := List.mem_map.1 hnl
      refine List.ne_nil_of_mem (a := q) ?_
      simp only [List.mem_filter, decide_eq_true_eq]
      exact ⟨hq, hqn⟩
    · intro h hlab
      have : h' = h := horizonLabel_inj h' h hlab
      subst this
      rfl

/-- Witness for C8 on the spec's Bitcoin example row. -/
theorem transform_data_order_and_mean_witness :
    (([⟨"Bitcoin", 1, 2, 3, 4, 5, 6⟩] : List QuoteRow).filter
        fun q => q.name = (⟨"Bitcoin", "1h", 1⟩ : TidyRow).name) ≠ [] :=
  ((transform_data_order_and_mean [⟨"Bitcoin", 1, 2, 3, 4, 5, 6⟩]).2
    ⟨"Bitcoin", "1h", 1⟩ (by
      show (⟨"Bitcoin", "1h", 1⟩ : TidyRow) ∈
        transform_data [⟨"Bitcoin", 1, 2, 3, 4, 5, 6⟩]
      norm_num [transform_data, firstSeen, firstSeenAux, tidyRowsFor, horizons,
        horizonLabel, groupMean, groupRows, pcCol])).1

/-- Splitting a quote-free character list leaves a single segment. -/
theorem splitOnQuote_no_quote :
    ∀ cs : List Char, quoteChar ∉ cs → splitOnQuote cs = [cs] := by
  intro cs
  induction cs with
  | nil => intro _; rfl
  | cons c rest ih =>
    intro hq
    have hc : c ≠ quoteChar := fun h => hq (h ▸ List.mem_cons_self c rest)
    have hrest : quoteChar ∉ rest := fun h => hq (List.mem_cons_of_mem c h)
    simp [splitOnQuote, ih hrest, hc]

/-- Counterexample to C6 as stated: a name containing a double quote splices
extra clauses into the query, so `filter_coin_data` keeps a row whose name
differs from the requested name; a lone double quote makes the query
malformed, so the call errors instead of returning an empty result; and a
name containing a bare line feed leaves the query's string literal
unterminated, so that call errors as well. -/
theorem filter_coin_data_injection_counterexample :
    filter_coin_data
        [⟨"x", 0, 0, 0, 0, 0, 0⟩, ⟨"y", 0, 0, 0, 0, 0, 0⟩]
        "x\" or name == \"y" =
      Except.ok [⟨"x", 0, 0, 0, 0, 0, 0⟩, ⟨"y", 0, 0, 0, 0, 0, 0⟩] ∧
    (⟨"y", 0, 0, 0, 0, 0, 0⟩ : QuoteRow).name ≠ "x\" or name == \"y" ∧
    filter_coin_data [⟨"x", 0, 0, 0, 0, 0, 0⟩] "\"" =
      Except.error "query error" ∧
    filter_coin_data [⟨"a\nb", 0, 0, 0, 0, 0, 0⟩] "a\nb" =
      Except.error "query error" := by
  refine ⟨rfl, ?_, rfl, rfl⟩
  decide

/-- C6 amended: for every table and every entity name containing no double
quote, backslash, line feed, carriage return or NUL character,
`filter_coin_data` selects exactly the rows whose name equals the given name
(exact, case-sensitive match), and when zero rows match it returns an empty
result rather than an error. -/
theorem filter_coin_data_exact_match (df : List QuoteRow) (c : String)
    (hq : quoteChar ∉ c.toList) (hb : backslashChar ∉ c.toList)
    (hlf : lineFeedChar ∉ c.toList) (hcr : carriageReturnChar ∉ c.toList)
    (hnul : nulChar ∉ c.toList) :
    filter_coin_data df c = Except.ok (df.filter fun r => r.name = c) ∧
    ((∀ r ∈ df, r.name ≠ c) → filter_coin_data df c = Except.ok []) := by
  have hlits : queryNameLits c = some [c] := by
    rw [queryNameLits,
      if_neg (not_or.2 ⟨hb, not_or.2 ⟨hlf, not_or.2 ⟨hcr, hnul⟩⟩⟩),
      splitOnQuote_no_quote c.toList hq]
    rfl
  have hmain : filter_coin_data df c = Except.ok (df.filter fun r => r.name = c) := by
    rw [filter_coin_data, hlits]
    show Except.ok (df.filter fun r => [c].contains r.name) =
      Except.ok (df.filter fun r => r.name = c)
    congr 1
    refine List.filter_congr ?_
    intro r _
    simp
  refine ⟨hmain, fun hnone => ?_⟩
  rw [hmain]
  congr 1
  rw [List.filter_eq_nil_iff]
  intro r hr
  simpa using hnone r hr

/-- Witness for the amended C6: filtering a table with no matching row for a
quote-free name yields an empty result without an error. -/
theorem filter_coin_data_exact_match_witness :
    filter_coin_data [⟨"x", 0, 0, 0, 0, 0, 0⟩] "Bitcoin" = Except.ok [] :=
  (filter_coin_data_exact_match [⟨"x", 0, 0, 0, 0, 0, 0⟩] "Bitcoin"
    (by decide) (by decide) (by decide) (by decide) (by decide)).2 (by decide)

end CryptoETL
